import Mathlib

/-!
# Verification of the financial_db ingestion pipeline

A shallow embedding of the ingestion/normalization pipeline of
`src/server.js`: cell-value normalization (`monthStringToIndex`,
`parseAmount`), header location (`findHeaderIndexes`) and the
aggregation loop of the upload route, together with theorems settling
the specification's claims about them.

JavaScript numbers are modelled exactly as a tagged type over the
rationals plus the three non-finite values (`JsNum`); the float64
rounding of the runtime is idealized away (every literal appearing in
the claims is exactly representable).  The JavaScript platform
functions the source calls (`String(n)`, `new Date(s)`, `parseFloat`)
are modelled by executable functions whose behaviour on the string
shapes the pipeline feeds them follows the V8 runtime; each carries a
comment saying what it models.
-/

namespace FinancialDb

/-- A JavaScript number: a finite rational, or NaN, or one of the two
infinities.  Comparisons against NaN are false, as in JS. -/
inductive JsNum where
  | fin (q : ℚ)
  | nan
  | posInf
  | negInf
deriving DecidableEq

/-- A raw worksheet cell as the route sees it after
`sheet_to_json(ws, {header: 1, defval: null, raw: true})`:
`absent` stands for `null`/`undefined`, `num` for a JS number,
`date` for a valid JS `Date` (only its `getMonth()` component, which
is always in 0..11, is ever read), `str` for text. -/
inductive Cell where
  | absent
  | num (j : JsNum)
  | date (m : Fin 12)
  | str (s : String)
deriving DecidableEq

/-! ## String helpers (models of the JS string operations used) -/

/-- Model of JS `String.prototype.trim` (the cells in play are ASCII). -/
def jsTrim (s : String) : String :=
  String.mk (((s.toList.dropWhile Char.isWhitespace).reverse.dropWhile
    Char.isWhitespace).reverse)

/-- Model of JS `toLowerCase` on the ASCII strings in play. -/
def jsToLower (s : String) : String :=
  String.mk (s.toList.map Char.toLower)

/-- `replace(/\s+/g, '')`: drop every whitespace character. -/
def removeWs (s : String) : String :=
  String.mk (s.toList.filter (fun c => !c.isWhitespace))

/-- `replace(/[.,]/g, '')`: drop every dot and comma. -/
def stripDotsCommas (s : String) : String :=
  String.mk (s.toList.filter (fun c => c != '.' && c != ','))

/-- `replace(/[^0-9.\-]/g, '')`: keep only digits, dots and minus signs,
wherever they occur. -/
def stripAmountChars (s : String) : String :=
  String.mk (s.toList.filter (fun c => c.isDigit || c == '.' || c == '-'))

/-- Value of a list of decimal digits, most significant first
(model of `parseInt(s, 10)` on an all-digit string). -/
def digitsToNat (cs : List Char) : ℕ :=
  cs.foldl (fun a c => a * 10 + (c.toNat - 48)) 0

/-- Value of a fraction part: `fracValue ['2','5'] = 25/100`. -/
def fracValue (cs : List Char) : ℚ :=
  cs.foldr (fun c v => (((c.toNat - 48 : ℕ) : ℚ) + v) / 10) 0

/-- Longest decimal-literal prefix of a character list: digits, then
optionally a dot and more digits; at least one digit overall.  This is
the numeric core of JS `parseFloat` on the strings the pipeline feeds
it (after stripping, no exponent letters or infinities can occur). -/
def parseDecimalPrefix (cs : List Char) : Option ℚ :=
  let ip := cs.takeWhile Char.isDigit
  match cs.dropWhile Char.isDigit with
  | '.' :: rest =>
    let fp := rest.takeWhile Char.isDigit
    if ip.isEmpty && fp.isEmpty then none
    else some ((digitsToNat ip : ℚ) + fracValue fp)
  | _ => if ip.isEmpty then none else some (digitsToNat ip)

/-- Model of JS `parseFloat` restricted to the character shapes reachable
here: optional sign, then the longest decimal prefix; `none` is NaN. -/
def jsParseFloat (s : String) : Option ℚ :=
  match s.toList.dropWhile Char.isWhitespace with
  | '-' :: cs => (parseDecimalPrefix cs).map Neg.neg
  | '+' :: cs => parseDecimalPrefix cs
  | cs => parseDecimalPrefix cs

/-- Decimal digits of the fractional part of a nonnegative rational,
to at most `fuel` places (used only to model `String(number)`). -/
def fracDigits (q : ℚ) : ℕ → List Char
  | 0 => []
  | fuel + 1 =>
    if q = 0 then []
    else
      let q10 := q * 10
      let d := q10.floor.toNat
      Char.ofNat (48 + d) :: fracDigits (q10 - q10.floor) fuel

/-- Model of JS `String(n)` for a finite number: sign, integer digits,
and (for non-integers) a dot and fraction digits.  Its output consists
only of digits, `-` and `.`, like the runtime's. -/
def jsFinToString (q : ℚ) : String :=
  let a := |q|
  let ip := (Nat.toDigits 10 a.floor.toNat).map id
  let fp := fracDigits (a - a.floor) 20
  String.mk ((if q < 0 then ['-'] else []) ++ ip ++ (if fp.isEmpty then [] else '.' :: fp))

/-- Model of JS `String(n)` on numbers. -/
def jsNumToString : JsNum → String
  | .nan => "NaN"
  | .posInf => "Infinity"
  | .negInf => "-Infinity"
  | .fin q => jsFinToString q

/-- Month names, as in the source's `MONTHS` table. -/
def MONTHS : List String :=
  ["January", "February", "March", "April", "May", "June",
   "July", "August", "September", "October", "November", "December"]

def monthsLower : List String := MONTHS.map jsToLower

/-- Model of JS `String(d)` on a valid `Date` (weekday, month
abbreviation, day, year, time).  Never a header synonym and never a
month string the resolver is fed, so only its shape matters. -/
def jsDateToString (m : Fin 12) : String :=
  "Mon " ++ String.mk (((MONTHS.getD m.1 "").toList.take 3)) ++ " 01 2001 00:00:00 GMT+0000"

/-- `String(c ?? '')`: the string a cell is coerced to. -/
def cellToString : Cell → String
  | .absent => ""
  | .num j => jsNumToString j
  | .date m => jsDateToString m
  | .str s => s

/-- Model of JS `Array.prototype.findIndex` (with a starting index for
the recursion); `none` stands for `-1`. -/
def jsFindIndexAux (p : α → Bool) : List α → ℕ → Option ℕ
  | [], _ => none
  | a :: l, i => if p a then some i else jsFindIndexAux p l (i + 1)

def jsFindIndex (p : α → Bool) (l : List α) : Option ℕ :=
  jsFindIndexAux p l 0

/-! ## jsDateMonth: model of `new Date(string)`

`monthStringToIndex` calls `new Date(s)` on the trimmed, lower-cased
cell text and keeps `getMonth()` when the date is valid.  The model
follows the V8 parser on the shapes in play:
* a word of three or more letters that is a prefix of a month name
  parses as that month (`"jan"`, `"sept"`, `"february"`, ...);
* a bare number parses as a month of 2001 when its value is 1..12, as
  the year 2000 when it is 0, as a year (January 1st) when it is 32 or
  more, and is invalid when it is 13..31;
* a `y-m-d` digit triple parses as a calendar date;
* everything else is invalid.
`getMonth()` of a valid date is always in 0..11, hence the codomain. -/

def splitDash : List Char → List (List Char)
  | [] => [[]]
  | c :: cs =>
    let r := splitDash cs
    if c == '-' then [] :: r
    else (c :: r.headD []) :: r.tail

/-- The `y-m-d` case of the date-string model. -/
def isoMonth (s : String) : Option (Fin 12) :=
  match splitDash s.toList with
  | [y, m, d] =>
    if !y.isEmpty && y.all Char.isDigit && !m.isEmpty && m.all Char.isDigit
        && !d.isEmpty && d.all Char.isDigit then
      if h : 1 ≤ digitsToNat m ∧ digitsToNat m ≤ 12 then
        if 1 ≤ digitsToNat d ∧ digitsToNat d ≤ 31 then
          some ⟨digitsToNat m - 1, by omega⟩
        else none
      else none
    else none
  | _ => none

/-- Model of `new Date(s).getMonth()` on a trimmed lower-case string,
`none` when the date is invalid (see the section comment). -/
def jsDateMonth (s : String) : Option (Fin 12) :=
  let cs := s.toList
  if 3 ≤ cs.length && cs.all Char.isAlpha then
    match jsFindIndex (fun nm => cs.isPrefixOf nm.toList) monthsLower with
    | some i => if h : i < 12 then some ⟨i, h⟩ else none
    | none => none
  else if !cs.isEmpty && cs.all Char.isDigit then
    let n := digitsToNat cs
    if h : 1 ≤ n ∧ n ≤ 12 then some ⟨n - 1, by omega⟩
    else if n = 0 then some ⟨0, by norm_num⟩
    else if n ≤ 31 then none
    else some ⟨0, by norm_num⟩
  else isoMonth s

/-! ## CellValueNormalizer (`monthStringToIndex`, `parseAmount`) -/

/-- The source's abbreviation table `abbr` (values are 0-based months). -/
def monthAbbrs : List (String × ℕ) :=
  [("jan", 0), ("feb", 1), ("mar", 2), ("apr", 3), ("may", 4), ("jun", 5),
   ("jul", 6), ("aug", 7), ("sep", 8), ("sept", 8), ("oct", 9), ("nov", 10),
   ("dec", 11)]

/-- The name lookups at the end of `monthStringToIndex`: the twelve full
lower-case names first, then the abbreviation table. -/
def monthNameLookup (cleaned : String) : Option ℚ :=
  match jsFindIndex (fun nm => nm == cleaned) monthsLower with
  | some i => some (i : ℚ)
  | none => (monthAbbrs.find? (fun p => p.1 == cleaned)).map (fun p => (p.2 : ℚ))

/-- The string path of `monthStringToIndex` (everything from
`const s = String(val).trim().toLowerCase()` on). -/
def monthStringFallback (raw : String) : Option ℚ :=
  let s := jsToLower (jsTrim raw)
  match jsDateMonth s with
  | some m => some (m.1 : ℚ)
  | none =>
    let cleaned := stripDotsCommas s
    if 1 ≤ cleaned.toList.length ∧ cleaned.toList.length ≤ 2
        ∧ cleaned.toList.all Char.isDigit = true then
      let n := digitsToNat cleaned.toList
      if 1 ≤ n ∧ n ≤ 12 then some ((n : ℚ) - 1) else monthNameLookup cleaned
    else monthNameLookup cleaned

/-- `monthStringToIndex` of the source: month cell to 0-based month
index, `none` for unresolved.  NaN and the infinities fail both numeric
range tests (JS comparisons with NaN are false) and fall through to the
string path, as in the runtime. -/
def monthStringToIndex : Cell → Option ℚ
  | .absent => none
  | .date m => some (m.1 : ℚ)
  | .num (.fin q) =>
    if 1 ≤ q ∧ q ≤ 12 then some (q - 1)
    else if 0 ≤ q ∧ q ≤ 11 then some q
    else monthStringFallback (jsNumToString (.fin q))
  | .num j => monthStringFallback (jsNumToString j)
  | .str s => monthStringFallback s

/-- `parseAmount` of the source: numbers pass through unchanged
(including NaN and the infinities); anything else is stringified,
trimmed, stripped to digits, dots and minus signs, checked against the
sentinel strings and handed to `parseFloat`. -/
def parseAmount : Cell → Option JsNum
  | .absent => none
  | .num j => some j
  | c =>
    let s := stripAmountChars (jsTrim (cellToString c))
    if s = "" ∨ s = "-" ∨ s = "." ∨ s = "-." then none
    else (jsParseFloat s).map JsNum.fin

/-! ## HeaderLocator (`findHeaderIndexes`) -/

/-- The per-cell normalization of the header scan:
`String(c ?? '').trim().toLowerCase().replace(/\s+/g, '')`. -/
def normCell (c : Cell) : String :=
  removeWs (jsToLower (jsTrim (cellToString c)))

/-- Month-label synonym test: `['month','months'].includes(x)`. -/
def isMonthLabel (s : String) : Bool :=
  ["month", "months"].contains s

/-- Amount-label synonym test: `['amount','value','amt'].includes(x)`. -/
def isAmountLabel (s : String) : Bool :=
  ["amount", "value", "amt"].contains s

/-- The result record of `findHeaderIndexes`. -/
structure HeaderInfo where
  headerRow : ℕ
  monthIdx : ℕ
  amountIdx : ℕ
deriving DecidableEq

/-- The scan loop of `findHeaderIndexes`:
`for (let r = 0; r < rows.length && r < 30; r++)`. -/
def findHeaderAux : List (List Cell) → ℕ → Option HeaderInfo
  | [], _ => none
  | row :: rest, r =>
    if r < 30 then
      match jsFindIndex isMonthLabel (row.map normCell),
            jsFindIndex isAmountLabel (row.map normCell) with
      | some mi, some ai => some ⟨r, mi, ai⟩
      | _, _ => findHeaderAux rest (r + 1)
    else none

/-- `findHeaderIndexes` of the source. -/
def findHeaderIndexes (rows : List (List Cell)) : Option HeaderInfo :=
  findHeaderAux rows 0

/-! ## RecordAggregator and IngestionPipeline (the upload route's core) -/

/-- One iteration of the normalization loop: the month cell and the
amount cell of a row resolved independently, `some (monthNum, amount)`
when both succeed (`monthNum = monthIndex + 1`). -/
def resolveRow (mi ai : ℕ) (row : List Cell) : Option (ℚ × JsNum) :=
  match monthStringToIndex (row.getD mi Cell.absent),
        parseAmount (row.getD ai Cell.absent) with
  | some m, some a => some (m + 1, a)
  | _, _ => none

/-- `rows.slice(headerRow + 1).filter(r => Array.isArray(r) && r.length > 0)`. -/
def dataRowsOf (rows : List (List Cell)) (headerRow : ℕ) : List (List Cell) :=
  (rows.drop (headerRow + 1)).filter (fun r => !r.isEmpty)

/-- The `normalized` array the route builds: every data row that
resolves, in row order, with no deduplication. -/
def normalizedOf (rows : List (List Cell)) (h : HeaderInfo) : List (ℚ × JsNum) :=
  (dataRowsOf rows h.headerRow).filterMap (resolveRow h.monthIdx h.amountIdx)

/-- Outcome of one ingestion run, as the route discriminates it. -/
inductive IngestResult where
  | emptyWorksheet
  | headerNotFound
  | noValidRows
  | ok (records : List (ℚ × JsNum))
deriving DecidableEq

/-- The upload route's core: empty-grid check, header search,
normalization loop, empty-result check.  `ok` carries the `normalized`
array handed to persistence. -/
def ingest (rows : List (List Cell)) : IngestResult :=
  if rows.isEmpty then .emptyWorksheet
  else
    match findHeaderIndexes rows with
    | none => .headerNotFound
    | some h =>
      if (normalizedOf rows h).isEmpty then .noValidRows
      else .ok (normalizedOf rows h)

/-! ## The caller's upsert, per record (`ON DUPLICATE KEY UPDATE`) -/

/-- One keyed upsert into an association list: replace the entry with
the same month if present, append otherwise. -/
def upsertOne (acc : List (ℚ × JsNum)) (p : ℚ × JsNum) : List (ℚ × JsNum) :=
  if acc.any (fun q => q.1 == p.1) then
    acc.map (fun q => if q.1 == p.1 then p else q)
  else acc ++ [p]

/-- The handed-over records applied in order via the upsert. -/
def upsertAll (l : List (ℚ × JsNum)) : List (ℚ × JsNum) :=
  List.foldl upsertOne [] l

/-- Amount stored for a month in an association list. -/
def keyLookup (m : ℚ) (l : List (ℚ × JsNum)) : Option JsNum :=
  (l.find? (fun p => p.1 == m)).map Prod.snd

/-- A row of the header scan qualifies: at least one month-label cell
and at least one amount-label cell (the spec's wording). -/
def rowQualifies (row : List Cell) : Bool :=
  row.any (fun c => isMonthLabel (normCell c)) &&
    row.any (fun c => isAmountLabel (normCell c))

/-! ## Lemmas about the JS findIndex model -/

theorem jsFindIndexAux_eq_none_iff {α : Type} (p : α → Bool) (l : List α) (i : ℕ) :
    jsFindIndexAux p l i = none ↔ ∀ a ∈ l, p a = false := by
  induction l generalizing i with
  | nil => simp [jsFindIndexAux]
  | cons a l ih =>
    by_cases hpa : p a = true
    · simp [jsFindIndexAux, hpa]
    · simp only [Bool.not_eq_true] at hpa
      simp [jsFindIndexAux, hpa, ih (i + 1)]

theorem jsFindIndexAux_eq_some_iff {α : Type} (p : α → Bool) (d : α) (l : List α)
    (i j : ℕ) :
    jsFindIndexAux p l i = some j ↔
      ∃ k, k < l.length ∧ j = i + k ∧ p (l.getD k d) = true ∧
        ∀ m, m < k → p (l.getD m d) = false := by
  induction l generalizing i with
  | nil => simp [jsFindIndexAux]
  | cons a l ih =>
    by_cases hpa : p a = true
    · simp only [jsFindIndexAux, hpa, if_true]
      constructor
      · rintro h
        exact ⟨0, by simp, by simpa using h.symm, by simpa using hpa, by omega⟩
      · rintro ⟨k, hk, hj, hget, hmin⟩
        rcases Nat.eq_zero_or_pos k with hk0 | hk0
        · subst hk0; simp only [Option.some_inj]; omega
        · exact absurd (by simpa [List.getD] using hpa) (by simpa using hmin 0 hk0)
    · simp only [Bool.not_eq_true] at hpa
      simp only [jsFindIndexAux, hpa, Bool.false_eq_true, if_false, ih (i + 1)]
      constructor
      · rintro ⟨k, hk, hj, hget, hmin⟩
        refine ⟨k + 1, by simpa using hk, by omega, by simpa using hget, ?_⟩
        intro m hm
        cases m with
        | zero => simpa using hpa
        | succ m => simpa using hmin m (by omega)
      · rintro ⟨k, hk, hj, hget, hmin⟩
        cases k with
        | zero => exact absurd (by simpa using hget) (by simp [hpa])
        | succ k =>
          refine ⟨k, by simpa using hk, by omega, by simpa using hget, ?_⟩
          intro m hm
          simpa using hmin (m + 1) (by omega)

theorem jsFindIndex_eq_none_iff {α : Type} (p : α → Bool) (l : List α) :
    jsFindIndex p l = none ↔ ∀ a ∈ l, p a = false :=
  jsFindIndexAux_eq_none_iff p l 0

theorem jsFindIndex_eq_some_iff {α : Type} (p : α → Bool) (d : α) (l : List α) (j : ℕ) :
    jsFindIndex p l = some j ↔
      ∃ k, k < l.length ∧ j = k ∧ p (l.getD k d) = true ∧
        ∀ m, m < k → p (l.getD m d) = false := by
  simpa using jsFindIndexAux_eq_some_iff p d l 0 j

/-- A row qualifies exactly when both findIndex calls of the scan succeed. -/
theorem rowQualifies_iff (row : List Cell) :
    rowQualifies row = true ↔
      (jsFindIndex isMonthLabel (row.map normCell)).isSome = true ∧
        (jsFindIndex isAmountLabel (row.map normCell)).isSome = true := by
  have h1 : ∀ (p : String → Bool),
      (jsFindIndex p (row.map normCell)).isSome = true ↔
        row.any (fun c => p (normCell c)) = true := by
    intro p
    rcases hfi : jsFindIndex p (row.map normCell) with _ | j
    · rw [jsFindIndex_eq_none_iff] at hfi
      simp only [Option.isSome_none, Bool.false_eq_true, false_iff]
      simp only [List.any_eq_true, not_exists]
      intro c hc
      have := hfi (normCell c) (List.mem_map_of_mem normCell hc.1)
      simp [this] at hc
    · rw [jsFindIndex_eq_some_iff p "" _ j] at hfi
      rcases hfi with ⟨k, hk, -, hget, -⟩
      have hk' : k < row.length := by simpa using hk
      rw [List.getD_eq_getElem _ _ hk, List.getElem_map] at hget
      simp only [Option.isSome_some, true_iff]
      exact List.any_eq_true.mpr ⟨row[k], List.getElem_mem hk', hget⟩
  rw [rowQualifies, Bool.and_eq_true, h1, h1]

/-! ## Characterization of the header scan -/

theorem findHeaderAux_eq_none_iff (rows : List (List Cell)) (i : ℕ) :
    findHeaderAux rows i = none ↔
      ∀ k, k < rows.length → i + k < 30 → rowQualifies (rows.getD k []) = false := by
  induction rows generalizing i with
  | nil => simp [findHeaderAux]
  | cons row rest ih =>
    have hRHS : (∀ k, k < (row :: rest).length → i + k < 30 →
          rowQualifies ((row :: rest).getD k []) = false) ↔
        ((i < 30 → rowQualifies row = false) ∧
          ∀ k, k < rest.length → (i + 1) + k < 30 →
            rowQualifies (rest.getD k []) = false) := by
      constructor
      · intro hall
        refine ⟨fun h30 => by simpa using hall 0 (by simp) (by omega),
          fun k hk hk30 => ?_⟩
        simpa using hall (k + 1) (by simpa using hk) (by omega)
      · rintro ⟨h0, hrest⟩ k hk hk30
        cases k with
        | zero => simpa using h0 (by omega)
        | succ k => simpa using hrest k (by simpa using hk) (by omega)
    rw [hRHS]
    by_cases hi : i < 30
    · simp only [findHeaderAux, hi, if_true]
      rcases hm : jsFindIndex isMonthLabel (row.map normCell) with _ | mi <;>
        rcases ha : jsFindIndex isAmountLabel (row.map normCell) with _ | ai
      · have hq : rowQualifies row = false := by
          rw [Bool.eq_false_iff, Ne, rowQualifies_iff]; simp [hm]
        simpa [hq] using ih (i + 1)
      · have hq : rowQualifies row = false := by
          rw [Bool.eq_false_iff, Ne, rowQualifies_iff]; simp [hm]
        simpa [hq] using ih (i + 1)
      · have hq : rowQualifies row = false := by
          rw [Bool.eq_false_iff, Ne, rowQualifies_iff]; simp [ha]
        simpa [hq] using ih (i + 1)
      · have hq : rowQualifies row = true := by
          rw [rowQualifies_iff]; exact ⟨by simp [hm], by simp [ha]⟩
        simp [hq, hi]
    · rw [findHeaderAux, if_neg hi]
      exact iff_of_true rfl
        ⟨fun h30 => absurd h30 hi, fun k hk hk30 => absurd hk30 (by omega)⟩

theorem findHeaderAux_eq_some (rows : List (List Cell)) (i : ℕ) (h : HeaderInfo)
    (hfind : findHeaderAux rows i = some h) :
    ∃ k, k < rows.length ∧ i + k < 30 ∧ h.headerRow = i + k ∧
      (∀ m, m < k → rowQualifies (rows.getD m []) = false) ∧
      jsFindIndex isMonthLabel ((rows.getD k []).map normCell) = some h.monthIdx ∧
      jsFindIndex isAmountLabel ((rows.getD k []).map normCell) = some h.amountIdx := by
  induction rows generalizing i with
  | nil => simp [findHeaderAux] at hfind
  | cons row rest ih =>
    by_cases hi : i < 30
    · rw [findHeaderAux, if_pos hi] at hfind
      rcases hm : jsFindIndex isMonthLabel (row.map normCell) with _ | mi <;>
        rcases ha : jsFindIndex isAmountLabel (row.map normCell) with _ | ai <;>
        rw [hm, ha] at hfind
      · rcases ih (i + 1) hfind with ⟨k, hk, hk30, hrow, hmin, hfm, hfa⟩
        have hq : rowQualifies row = false := by
          rw [Bool.eq_false_iff, Ne, rowQualifies_iff]; simp [hm]
        refine ⟨k + 1, by simpa using hk, by omega, by omega, ?_, by simpa using hfm,
          by simpa using hfa⟩
        intro m hmlt
        cases m with
        | zero => simpa using hq
        | succ m => simpa using hmin m (by omega)
      · rcases ih (i + 1) hfind with ⟨k, hk, hk30, hrow, hmin, hfm, hfa⟩
        have hq : rowQualifies row = false := by
          rw [Bool.eq_false_iff, Ne, rowQualifies_iff]; simp [hm]
        refine ⟨k + 1, by simpa using hk, by omega, by omega, ?_, by simpa using hfm,
          by simpa using hfa⟩
        intro m hmlt
        cases m with
        | zero => simpa using hq
        | succ m => simpa using hmin m (by omega)
      · rcases ih (i + 1) hfind with ⟨k, hk, hk30, hrow, hmin, hfm, hfa⟩
        have hq : rowQualifies row = false := by
          rw [Bool.eq_false_iff, Ne, rowQualifies_iff]; simp [ha]
        refine ⟨k + 1, by simpa using hk, by omega, by omega, ?_, by simpa using hfm,
          by simpa using hfa⟩
        intro m hmlt
        cases m with
        | zero => simpa using hq
        | succ m => simpa using hmin m (by omega)
      · rcases Option.some_inj.mp hfind with rfl
        exact ⟨0, by simp, by omega, by simp, by omega, by simpa using hm,
          by simpa using ha⟩
    · rw [findHeaderAux, if_neg hi] at hfind
      exact absurd hfind (by simp)

/-- Appending rows after a grid in which the scan already succeeds does
not change its result. -/
theorem findHeaderAux_append (rows extra : List (List Cell)) (i : ℕ) (h : HeaderInfo)
    (hfind : findHeaderAux rows i = some h) :
    findHeaderAux (rows ++ extra) i = some h := by
  induction rows generalizing i with
  | nil => simp [findHeaderAux] at hfind
  | cons row rest ih =>
    by_cases hi : i < 30
    · rw [findHeaderAux, if_pos hi] at hfind
      rw [List.cons_append, findHeaderAux, if_pos hi]
      rcases hm : jsFindIndex isMonthLabel (row.map normCell) with _ | mi <;>
        rcases ha : jsFindIndex isAmountLabel (row.map normCell) with _ | ai <;>
        rw [hm, ha] at hfind
      · exact ih (i + 1) hfind
      · exact ih (i + 1) hfind
      · exact ih (i + 1) hfind
      · exact hfind
    · rw [findHeaderAux, if_neg hi] at hfind
      exact absurd hfind (by simp)

/-- C5: the header search scans only the first 30 rows; it fails exactly
when no scanned row holds both a month-label cell and an amount-label
cell; otherwise it returns the lowest qualifying row index with the
first matching month-label column and the first matching amount-label
column of that row. -/
theorem c5_header_search (rows : List (List Cell)) :
    (findHeaderIndexes rows = none ↔
      ∀ k, k < rows.length → k < 30 → rowQualifies (rows.getD k []) = false)
  ∧ (∀ h : HeaderInfo, findHeaderIndexes rows = some h →
      h.headerRow < 30 ∧ h.headerRow < rows.length ∧
      rowQualifies (rows.getD h.headerRow []) = true ∧
      (∀ m, m < h.headerRow → rowQualifies (rows.getD m []) = false) ∧
      jsFindIndex isMonthLabel ((rows.getD h.headerRow []).map normCell) =
        some h.monthIdx ∧
      jsFindIndex isAmountLabel ((rows.getD h.headerRow []).map normCell) =
        some h.amountIdx) := by
  constructor
  · simpa using findHeaderAux_eq_none_iff rows 0
  · intro h hfind
    rcases findHeaderAux_eq_some rows 0 h hfind with ⟨k, hk, hk30, hrow, hmin, hfm, hfa⟩
    have hkr : h.headerRow = k := by omega
    rw [hkr]
    exact ⟨by omega, hk,
      (rowQualifies_iff _).mpr ⟨by rw [hfm]; rfl, by rw [hfa]; rfl⟩, hmin, hfm, hfa⟩

/-- C9: header-label matching is exact equality after normalization,
never substring containment: a normalized cell counts as a label only
when it equals one of the synonyms, so cells like `"Monthly"` and
`"Amount ($)"` never qualify. -/
theorem c9_exact_label_match :
    (∀ s : String, isMonthLabel s = true ↔ s = "month" ∨ s = "months")
  ∧ (∀ s : String, isAmountLabel s = true ↔
      s = "amount" ∨ s = "value" ∨ s = "amt")
  ∧ normCell (.str "Monthly") = "monthly"
  ∧ isMonthLabel "monthly" = false
  ∧ normCell (.str "Amount ($)") = "amount($)"
  ∧ isAmountLabel "amount($)" = false
  ∧ findHeaderIndexes [[Cell.str "Monthly", Cell.str "Amount ($)"]] = none := by
  refine ⟨fun s => by simp [isMonthLabel, List.contains],
    fun s => by simp [isAmountLabel, List.contains], ?_, ?_, ?_, ?_, ?_⟩ <;>
    with_unfolding_all rfl

/-- C10: in every header location the search returns, the month column
differs from the amount column, because the two synonym sets are
disjoint and one normalized cell cannot match both. -/
theorem c10_distinct_columns (rows : List (List Cell)) (h : HeaderInfo)
    (hfind : findHeaderIndexes rows = some h) : h.monthIdx ≠ h.amountIdx := by
  rcases findHeaderAux_eq_some rows 0 h hfind with ⟨k, hk, -, -, -, hfm, hfa⟩
  rw [jsFindIndex_eq_some_iff _ "" _ _] at hfm hfa
  rcases hfm with ⟨km, -, hjm, hm, -⟩
  rcases hfa with ⟨ka, -, hja, ha, -⟩
  intro heq
  have hk2 : km = ka := by omega
  subst hk2
  simp only [isMonthLabel, List.contains] at hm
  simp only [isAmountLabel, List.contains] at ha
  simp only [List.elem_eq_mem, decide_eq_true_eq, List.mem_cons,
    List.mem_singleton, List.not_mem_nil, or_false] at hm ha
  rcases hm with h1 | h1 <;> rcases ha with h2 | h2 | h2 <;> rw [h1] at h2 <;>
    exact absurd h2 (by decide)

/-- Witness for C10 at a concrete grid with header `["Month","Amount"]`. -/
theorem c10_distinct_columns_witness :
    findHeaderIndexes [[Cell.str "Month", Cell.str "Amount"]] =
        some ⟨0, 0, 1⟩ ∧ (0 : ℕ) ≠ 1 :=
  ⟨by with_unfolding_all rfl,
    c10_distinct_columns [[Cell.str "Month", Cell.str "Amount"]] ⟨0, 0, 1⟩
      (by with_unfolding_all rfl)⟩

/-! ## Range lemmas for month resolution -/

theorem jsFindIndex_lt_length {α : Type} {p : α → Bool} {l : List α} {j : ℕ}
    (d : α) (h : jsFindIndex p l = some j) : j < l.length := by
  rw [jsFindIndex_eq_some_iff p d l j] at h
  rcases h with ⟨k, hk, rfl, -, -⟩
  exact hk

/-- The name lookups only ever produce a natural month index in 0..11. -/
theorem monthNameLookup_range (cleaned : String) (q : ℚ)
    (h : monthNameLookup cleaned = some q) : ∃ n : ℕ, q = (n : ℚ) ∧ n ≤ 11 := by
  unfold monthNameLookup at h
  rcases hf : jsFindIndex (fun nm => nm == cleaned) monthsLower with _ | i <;>
    rw [hf] at h
  · rcases hm : monthAbbrs.find? (fun p => p.1 == cleaned) with _ | p <;>
      rw [hm] at h
    · simp at h
    · have hmem := List.mem_of_find?_eq_some hm
      have hall : ∀ x ∈ monthAbbrs, x.2 ≤ 11 := by decide
      exact ⟨p.2, by simpa using h.symm, hall p hmem⟩
  · have hi : i < monthsLower.length := jsFindIndex_lt_length "" hf
    have hlen : monthsLower.length = 12 := by rfl
    exact ⟨i, by simpa using h.symm, by omega⟩

/-- The string path of month resolution only ever produces a natural
month index in 0..11. -/
theorem monthStringFallback_range (s : String) (q : ℚ)
    (h : monthStringFallback s = some q) : ∃ n : ℕ, q = (n : ℚ) ∧ n ≤ 11 := by
  rw [monthStringFallback] at h
  rcases hd : jsDateMonth (jsToLower (jsTrim s)) with _ | m <;> rw [hd] at h
  · by_cases hdig : 1 ≤ (stripDotsCommas (jsToLower (jsTrim s))).toList.length ∧
        (stripDotsCommas (jsToLower (jsTrim s))).toList.length ≤ 2 ∧
        (stripDotsCommas (jsToLower (jsTrim s))).toList.all Char.isDigit = true
    · rw [if_pos hdig] at h
      by_cases hrange : 1 ≤ digitsToNat (stripDotsCommas (jsToLower (jsTrim s))).toList ∧
          digitsToNat (stripDotsCommas (jsToLower (jsTrim s))).toList ≤ 12
      · rw [if_pos hrange] at h
        refine ⟨digitsToNat (stripDotsCommas (jsToLower (jsTrim s))).toList - 1, ?_, by omega⟩
        rw [Nat.cast_sub hrange.1, Nat.cast_one]
        simpa using h.symm
      · rw [if_neg hrange] at h
        exact monthNameLookup_range _ _ h
    · rw [if_neg hdig] at h
      exact monthNameLookup_range _ _ h
  · exact ⟨m.1, by simpa using h.symm, by have := m.isLt; omega⟩

/-- Every resolved month index lies in the real interval [0, 11]. -/
theorem monthStringToIndex_range (c : Cell) (q : ℚ)
    (h : monthStringToIndex c = some q) : 0 ≤ q ∧ q ≤ 11 := by
  have ofNat : ∀ n : ℕ, n ≤ 11 → q = (n : ℚ) → 0 ≤ q ∧ q ≤ 11 := by
    rintro n hn rfl
    constructor
    · positivity
    · exact_mod_cast hn
  cases c with
  | absent => simp [monthStringToIndex] at h
  | date m =>
    rw [monthStringToIndex] at h
    have hm : q = (m.1 : ℚ) := by simpa using h.symm
    exact ofNat m.1 (by have := m.isLt; omega) hm
  | str s =>
    rw [monthStringToIndex] at h
    rcases monthStringFallback_range s q h with ⟨n, rfl, hn⟩
    exact ofNat n hn rfl
  | num j =>
    cases j with
    | fin v =>
      rw [monthStringToIndex] at h
      by_cases h1 : 1 ≤ v ∧ v ≤ 12
      · rw [if_pos h1] at h
        have : q = v - 1 := by simpa using h.symm
        subst this
        constructor <;> [linarith [h1.1]; linarith [h1.2]]
      · rw [if_neg h1] at h
        by_cases h2 : 0 ≤ v ∧ v ≤ 11
        · rw [if_pos h2] at h
          have : q = v := by simpa using h.symm
          subst this
          exact h2
        · rw [if_neg h2] at h
          rcases monthStringFallback_range _ q h with ⟨n, rfl, hn⟩
          exact ofNat n hn rfl
    | nan =>
      simp only [monthStringToIndex] at h
      rcases monthStringFallback_range _ q h with ⟨n, rfl, hn⟩
      exact ofNat n hn rfl
    | posInf =>
      simp only [monthStringToIndex] at h
      rcases monthStringFallback_range _ q h with ⟨n, rfl, hn⟩
      exact ofNat n hn rfl
    | negInf =>
      simp only [monthStringToIndex] at h
      rcases monthStringFallback_range _ q h with ⟨n, rfl, hn⟩
      exact ofNat n hn rfl

/-! ## Claims about cell-value normalization (C2) -/

/-- C2: month resolution follows the source's rule order and yields the
spec's examples: `"January"`, `"jan"` resolve to 0, `"Sept"` to 8,
`"13"` (outside 1..12) is unresolved, `"0"` resolves to 0, and a date
cell for 2023-07-04 resolves to 6. -/
theorem c2_month_resolution_examples :
    monthStringToIndex (.str "January") = some 0
  ∧ monthStringToIndex (.str "jan") = some 0
  ∧ monthStringToIndex (.str "Sept") = some 8
  ∧ monthStringToIndex (.str "13") = none
  ∧ monthStringToIndex (.str "0") = some 0
  ∧ monthStringToIndex (.date ⟨6, by norm_num⟩) = some 6 := by
  refine ⟨?_, ?_, ?_, ?_, ?_, ?_⟩ <;> with_unfolding_all rfl

/-! ## Concrete grids used by the claims -/

/-- The end-to-end scenario grid of the spec: two noise rows, the
header `["Month","Amount"]` at index 2, then the four data rows. -/
def exampleGrid : List (List Cell) :=
  [[Cell.str "Financial Report"],
   [Cell.str "prepared by excel", Cell.absent],
   [Cell.str "Month", Cell.str "Amount"],
   [Cell.str "Jan", Cell.num (.fin 100)],
   [Cell.str "February", Cell.str "$50.25"],
   [Cell.str "garbage", Cell.str "N/A"],
   [Cell.str "3", Cell.num (.fin 75)]]

/-- A grid whose two data rows both resolve to March (month cells hold
the number 3), with amounts 100 then 150. -/
def lwwGrid : List (List Cell) :=
  [[Cell.str "Month", Cell.str "Amount"],
   [Cell.num (.fin 3), Cell.num (.fin 100)],
   [Cell.num (.fin 3), Cell.num (.fin 150)]]

/-- A grid with a fractional numeric month cell (2.5) and a NaN numeric
amount cell. -/
def illFormedGrid : List (List Cell) :=
  [[Cell.str "Month", Cell.str "Amount"],
   [Cell.num (.fin (5 / 2)), Cell.num (.fin 100)],
   [Cell.num (.fin 1), Cell.num JsNum.nan]]

/-- A grid with a header but no resolvable data row. -/
def noValidGrid : List (List Cell) :=
  [[Cell.str "Month", Cell.str "Amount"],
   [Cell.str "x", Cell.str "y"]]

/-- C3: on the end-to-end scenario grid, ingestion succeeds and hands
over exactly the records (1, 100), (2, 50.25), (3, 75) — the garbage
row is dropped, `"$50.25"` is cleaned to 50.25, and the digit string
`"3"` resolves to March. -/
theorem c3_end_to_end :
    ingest exampleGrid = .ok [(1, .fin 100), (2, .fin 50.25), (3, .fin 75)] := by
  with_unfolding_all rfl

/-! ## Inversion lemmas for the pipeline -/

theorem findHeaderIndexes_nil : findHeaderIndexes [] = none := rfl

theorem rows_ne_nil_of_header {rows : List (List Cell)} {h : HeaderInfo}
    (hf : findHeaderIndexes rows = some h) : rows ≠ [] := by
  rintro rfl
  rw [findHeaderIndexes_nil] at hf
  cases hf

theorem ingest_eq_ok_elim {rows : List (List Cell)} {recs : List (ℚ × JsNum)}
    (h : ingest rows = .ok recs) :
    ∃ hi, findHeaderIndexes rows = some hi ∧ recs = normalizedOf rows hi ∧
      recs ≠ [] := by
  by_cases hemp : rows.isEmpty = true
  · rw [ingest, if_pos hemp] at h
    cases h
  · rw [ingest, if_neg hemp] at h
    rcases hf : findHeaderIndexes rows with _ | hi <;> rw [hf] at h
    · exact absurd (h.symm.trans rfl) (by simp)
    · replace h : (if (normalizedOf rows hi).isEmpty = true then
          IngestResult.noValidRows
          else IngestResult.ok (normalizedOf rows hi)) = IngestResult.ok recs := h
      by_cases hre : (normalizedOf rows hi).isEmpty = true
      · rw [if_pos hre] at h
        cases h
      · rw [if_neg hre] at h
        injection h with h
        refine ⟨hi, rfl, h.symm, ?_⟩
        rw [h.symm]
        intro hnil
        exact hre (by simp [hnil])

theorem ingest_eq_ok_intro {rows : List (List Cell)} (hi : HeaderInfo)
    (hf : findHeaderIndexes rows = some hi) (hne : normalizedOf rows hi ≠ []) :
    ingest rows = .ok (normalizedOf rows hi) := by
  have hemp : ¬ rows.isEmpty = true := by
    simpa [List.isEmpty_iff] using rows_ne_nil_of_header hf
  rw [ingest, if_neg hemp, hf]
  show (if (normalizedOf rows hi).isEmpty = true then IngestResult.noValidRows
      else IngestResult.ok (normalizedOf rows hi)) = _
  rw [if_neg (by simpa [List.isEmpty_iff] using hne)]

theorem ingest_eq_noValidRows_intro {rows : List (List Cell)} (hi : HeaderInfo)
    (hf : findHeaderIndexes rows = some hi) (he : normalizedOf rows hi = []) :
    ingest rows = .noValidRows := by
  have hemp : ¬ rows.isEmpty = true := by
    simpa [List.isEmpty_iff] using rows_ne_nil_of_header hf
  rw [ingest, if_neg hemp, hf]
  show (if (normalizedOf rows hi).isEmpty = true then IngestResult.noValidRows
      else IngestResult.ok (normalizedOf rows hi)) = _
  rw [if_pos (by simp [he])]

/-- C6: ingestion never returns an empty successful result: a successful
run hands over at least one record, and a located header with no
resolvable data row (including no data rows at all) ends in the
no-valid-rows failure — as on the concrete grid `noValidGrid`. -/
theorem c6_no_empty_success :
    (∀ (rows : List (List Cell)) (recs : List (ℚ × JsNum)),
      ingest rows = .ok recs → recs ≠ [])
  ∧ (∀ (rows : List (List Cell)) (hi : HeaderInfo),
      findHeaderIndexes rows = some hi →
      (∀ row ∈ dataRowsOf rows hi.headerRow,
        resolveRow hi.monthIdx hi.amountIdx row = none) →
      ingest rows = .noValidRows)
  ∧ ingest noValidGrid = .noValidRows := by
  refine ⟨?_, ?_, by with_unfolding_all rfl⟩
  · intro rows recs h
    rcases ingest_eq_ok_elim h with ⟨hi, -, -, hne⟩
    exact hne
  · intro rows hi hf hall
    exact ingest_eq_noValidRows_intro hi hf (List.filterMap_eq_nil_iff.mpr hall)

/-- Witness for C6: its sheet-level parts applied to the concrete grid
`noValidGrid`, whose only data row resolves neither cell. -/
theorem c6_no_empty_success_witness : ingest noValidGrid = .noValidRows :=
  c6_no_empty_success.2.1 noValidGrid ⟨0, 0, 1⟩ (by with_unfolding_all rfl)
    (by with_unfolding_all decide)

/-! ## C4: record well-formedness -/

/-- C4 counterexample: a numeric month cell 2.5 passes the range test
of `monthStringToIndex` and yields the record (2.5, 100) whose
monthNumber is not an integer (denominator 2), and a numeric NaN amount
cell passes `parseAmount` unchanged and yields the record (1, NaN)
whose amount is not a finite number — refuting the claim that every
emitted record has an integral monthNumber in 1..12 and a finite
amount. -/
theorem c4_counterexample :
    ingest illFormedGrid = .ok [(5 / 2, .fin 100), (1, JsNum.nan)]
  ∧ ((5 : ℚ) / 2).den = 2
  ∧ JsNum.nan ≠ JsNum.fin ((5 : ℚ) / 2)
  ∧ (∀ q : ℚ, JsNum.nan ≠ JsNum.fin q) := by
  refine ⟨by with_unfolding_all rfl, by with_unfolding_all rfl, by simp, fun q => by simp⟩

/-- C4 (amended): every emitted record's monthNumber lies in the real
interval [1, 12]; it is a natural number whenever the month cell is not
numeric (absent, date or text cells), and the amount is a finite number
whenever the amount cell is not numeric — only numeric cells pass
through unchanged, letting fractional months and non-finite amounts
into records. -/
theorem c4_record_well_formedness :
    (∀ (rows : List (List Cell)) (recs : List (ℚ × JsNum)) (p : ℚ × JsNum),
      ingest rows = .ok recs → p ∈ recs → 1 ≤ p.1 ∧ p.1 ≤ 12)
  ∧ (∀ (s : String) (q : ℚ), monthStringToIndex (.str s) = some q →
      ∃ n : ℕ, q = (n : ℚ) ∧ n ≤ 11)
  ∧ (∀ (m : Fin 12) (q : ℚ), monthStringToIndex (.date m) = some q →
      ∃ n : ℕ, q = (n : ℚ) ∧ n ≤ 11)
  ∧ (∀ (s : String) (a : JsNum), parseAmount (.str s) = some a →
      ∃ r : ℚ, a = .fin r)
  ∧ (∀ (m : Fin 12) (a : JsNum), parseAmount (.date m) = some a →
      ∃ r : ℚ, a = .fin r) := by
  have strAmount : ∀ (c : Cell) (a : JsNum),
      (if stripAmountChars (jsTrim (cellToString c)) = "" ∨
          stripAmountChars (jsTrim (cellToString c)) = "-" ∨
          stripAmountChars (jsTrim (cellToString c)) = "." ∨
          stripAmountChars (jsTrim (cellToString c)) = "-." then none
        else (jsParseFloat (stripAmountChars (jsTrim (cellToString c)))).map JsNum.fin)
        = some a → ∃ r : ℚ, a = .fin r := by
    intro c a h
    split at h
    · cases h
    · rcases Option.map_eq_some'.mp h with ⟨r, -, hr⟩
      exact ⟨r, hr.symm⟩
  refine ⟨?_, ?_, ?_, ?_, ?_⟩
  · intro rows recs p hok hp
    rcases ingest_eq_ok_elim hok with ⟨hi, -, rfl, -⟩
    rw [normalizedOf] at hp
    rcases List.mem_filterMap.mp hp with ⟨row, -, hres⟩
    rw [resolveRow] at hres
    rcases hm : monthStringToIndex (row.getD hi.monthIdx Cell.absent) with _ | m <;>
      rcases ha : parseAmount (row.getD hi.amountIdx Cell.absent) with _ | a <;>
      rw [hm, ha] at hres
    · cases hres
    · cases hres
    · cases hres
    · injection hres with hres
      rcases monthStringToIndex_range _ _ hm with ⟨h0, h11⟩
      rw [← hres]
      constructor <;> simp <;> linarith
  · intro s q h
    rw [monthStringToIndex] at h
    exact monthStringFallback_range _ _ h
  · intro m q h
    rw [monthStringToIndex] at h
    exact ⟨m.1, by simpa using h.symm, by have := m.isLt; omega⟩
  · intro s a h
    simp only [parseAmount] at h
    exact strAmount (.str s) a h
  · intro m a h
    simp only [parseAmount] at h
    exact strAmount (.date m) a h

/-- Witness for C4 (amended): its parts applied at the end-to-end grid
and at concrete cells. -/
theorem c4_record_well_formedness_witness :
    (1 ≤ (2 : ℚ) ∧ (2 : ℚ) ≤ 12) ∧ (∃ n : ℕ, (0 : ℚ) = (n : ℚ) ∧ n ≤ 11) ∧
      (∃ r : ℚ, JsNum.fin 50.25 = JsNum.fin r) :=
  ⟨c4_record_well_formedness.1 exampleGrid
      [(1, .fin 100), (2, .fin 50.25), (3, .fin 75)] (2, .fin 50.25)
      (by with_unfolding_all rfl) (by simp),
    c4_record_well_formedness.2.1 "jan" 0 (by with_unfolding_all rfl),
    c4_record_well_formedness.2.2.2.1 "$50.25" (.fin 50.25)
      (by with_unfolding_all rfl)⟩

/-! ## C8: row independence -/

/-- C8: row failures are independent and absorbed.  Removing a data row
that does not resolve leaves the whole ingestion result unchanged, and
one resolvable data row guarantees a successful (non-empty) result —
no row-level failure can turn such a run into a sheet-level failure. -/
theorem c8_row_independence :
    (∀ (pre post : List (List Cell)) (bad : List Cell) (hi : HeaderInfo),
      findHeaderIndexes pre = some hi →
      resolveRow hi.monthIdx hi.amountIdx bad = none →
      ingest (pre ++ bad :: post) = ingest (pre ++ post))
  ∧ (∀ (rows : List (List Cell)) (hi : HeaderInfo) (row : List Cell) (p : ℚ × JsNum),
      findHeaderIndexes rows = some hi →
      row ∈ dataRowsOf rows hi.headerRow →
      resolveRow hi.monthIdx hi.amountIdx row = some p →
      ingest rows = .ok (normalizedOf rows hi) ∧ p ∈ normalizedOf rows hi) := by
  constructor
  · intro pre post bad hi hf hbad
    have hf1 : findHeaderIndexes (pre ++ bad :: post) = some hi :=
      findHeaderAux_append pre (bad :: post) 0 hi hf
    have hf2 : findHeaderIndexes (pre ++ post) = some hi :=
      findHeaderAux_append pre post 0 hi hf
    have hlt : hi.headerRow < pre.length := by
      rcases findHeaderAux_eq_some pre 0 hi hf with ⟨k, hk, -, hrow, -⟩
      omega
    have hdrop : ∀ extra : List (List Cell),
        (pre ++ extra).drop (hi.headerRow + 1) =
          pre.drop (hi.headerRow + 1) ++ extra := fun extra =>
      List.drop_append_of_le_length (by omega)
    have hnorm : normalizedOf (pre ++ bad :: post) hi = normalizedOf (pre ++ post) hi := by
      rw [normalizedOf, normalizedOf, dataRowsOf, dataRowsOf, hdrop, hdrop,
        List.filter_append, List.filter_append, List.filterMap_append,
        List.filterMap_append, List.filter_cons]
      by_cases hbe : bad.isEmpty
      · rw [if_neg (by simp [hbe])]
      · rw [if_pos (by simp [hbe]), List.filterMap_cons_none hbad]
    have hne1 : ¬ (pre ++ bad :: post).isEmpty = true := by
      simp [List.isEmpty_iff]
    have hne2 : ¬ (pre ++ post).isEmpty = true := by
      have := rows_ne_nil_of_header hf
      simp [List.isEmpty_iff, this]
    rw [ingest, ingest, if_neg hne1, if_neg hne2, hf1, hf2]
    show (if (normalizedOf (pre ++ bad :: post) hi).isEmpty = true
        then IngestResult.noValidRows
        else IngestResult.ok (normalizedOf (pre ++ bad :: post) hi)) = _
    rw [hnorm]
  · intro rows hi row p hf hrow hres
    have hmem : p ∈ normalizedOf rows hi :=
      List.mem_filterMap.mpr ⟨row, hrow, hres⟩
    exact ⟨ingest_eq_ok_intro hi hf (List.ne_nil_of_mem hmem), hmem⟩

/-- Witness for C8: dropping the garbage row of the end-to-end grid
does not change the result, and the valid first data row guarantees
success. -/
theorem c8_row_independence_witness :
    ingest ([[Cell.str "Month", Cell.str "Amount"], [Cell.str "Jan", Cell.num (.fin 100)]]
        ++ [Cell.str "garbage", Cell.str "N/A"] :: [[Cell.str "3", Cell.num (.fin 75)]]) =
      ingest ([[Cell.str "Month", Cell.str "Amount"], [Cell.str "Jan", Cell.num (.fin 100)]]
        ++ [[Cell.str "3", Cell.num (.fin 75)]]) :=
  c8_row_independence.1
    [[Cell.str "Month", Cell.str "Amount"], [Cell.str "Jan", Cell.num (.fin 100)]]
    [[Cell.str "3", Cell.num (.fin 75)]] [Cell.str "garbage", Cell.str "N/A"]
    ⟨0, 0, 1⟩ (by with_unfolding_all rfl) (by with_unfolding_all rfl)

/-! ## The keyed upsert fold (C1) -/

theorem keyLookup_map_replace_ne (acc : List (ℚ × JsNum)) (p : ℚ × JsNum) (m : ℚ)
    (hne : p.1 ≠ m) :
    keyLookup m (acc.map (fun q => if q.1 == p.1 then p else q)) = keyLookup m acc := by
  induction acc with
  | nil => rfl
  | cons a acc ih =>
    rw [List.map_cons]
    by_cases hap : a.1 = p.1
    · rw [keyLookup, keyLookup, if_pos (by simpa using hap),
        List.find?_cons_of_neg _ (by simpa using hne),
        List.find?_cons_of_neg _ (by simp [hap, hne])]
      exact ih
    · rw [keyLookup, keyLookup, if_neg (by simpa using hap)]
      by_cases ham : a.1 = m
      · rw [List.find?_cons_of_pos _ (by simpa using ham),
          List.find?_cons_of_pos _ (by simpa using ham)]
      · rw [List.find?_cons_of_neg _ (by simpa using ham),
          List.find?_cons_of_neg _ (by simpa using ham)]
        exact ih

theorem keyLookup_map_replace_eq (acc : List (ℚ × JsNum)) (p : ℚ × JsNum)
    (hmem : acc.any (fun q => q.1 == p.1) = true) :
    keyLookup p.1 (acc.map (fun q => if q.1 == p.1 then p else q)) = some p.2 := by
  induction acc with
  | nil => simp at hmem
  | cons a acc ih =>
    rw [List.map_cons]
    by_cases hap : a.1 = p.1
    · rw [keyLookup, if_pos (by simpa using hap),
        List.find?_cons_of_pos _ (by simp)]
      rfl
    · rw [keyLookup, if_neg (by simpa using hap),
        List.find?_cons_of_neg _ (by simpa using hap)]
      rw [List.any_cons] at hmem
      exact ih (by simpa [hap] using hmem)

theorem keyLookup_upsertOne (acc : List (ℚ × JsNum)) (p : ℚ × JsNum) (m : ℚ) :
    keyLookup m (upsertOne acc p) =
      if p.1 = m then some p.2 else keyLookup m acc := by
  rw [upsertOne]
  by_cases hmem : acc.any (fun q => q.1 == p.1) = true
  · rw [if_pos hmem]
    by_cases hpm : p.1 = m
    · rw [if_pos hpm, ← hpm]
      exact keyLookup_map_replace_eq acc p hmem
    · rw [if_neg hpm]
      exact keyLookup_map_replace_ne acc p m hpm
  · rw [if_neg hmem]
    have hnone : List.find? (fun r => r.1 == p.1) acc = none := by
      rw [List.find?_eq_none]
      intro x hx hxp
      exact hmem (List.any_eq_true.mpr ⟨x, hx, hxp⟩)
    by_cases hpm : p.1 = m
    · rw [if_pos hpm, keyLookup, List.find?_append, ← hpm, hnone, Option.none_or,
        List.find?_cons_of_pos _ (by simp)]
      rfl
    · rw [if_neg hpm, keyLookup, keyLookup, List.find?_append,
        List.find?_cons_of_neg _ (by simpa using hpm), List.find?_nil, Option.or_none]

theorem upsertAll_concat (l : List (ℚ × JsNum)) (p : ℚ × JsNum) :
    upsertAll (l ++ [p]) = upsertOne (upsertAll l) p := by
  rw [upsertAll, upsertAll, List.foldl_append]
  rfl

theorem keyLookup_upsertAll (l : List (ℚ × JsNum)) (m : ℚ) :
    keyLookup m (upsertAll l) =
      ((l.filter (fun p => p.1 == m)).getLast?).map Prod.snd := by
  induction l using List.reverseRecOn with
  | nil => rfl
  | append_singleton l p ih =>
    rw [upsertAll_concat, keyLookup_upsertOne, List.filter_append]
    by_cases hpm : p.1 = m
    · rw [if_pos hpm]
      have hfp : List.filter (fun p => p.1 == m) [p] = [p] := by simp [hpm]
      rw [hfp, List.getLast?_concat]
      rfl
    · rw [if_neg hpm]
      have hfp : List.filter (fun p => p.1 == m) [p] = [] := by simp [hpm]
      rw [hfp, List.append_nil, ih]

theorem upsertOne_keys_nodup (acc : List (ℚ × JsNum)) (p : ℚ × JsNum)
    (h : acc.Pairwise (fun a b => a.1 ≠ b.1)) :
    (upsertOne acc p).Pairwise (fun a b => a.1 ≠ b.1) := by
  rw [upsertOne]
  by_cases hmem : acc.any (fun q => q.1 == p.1) = true
  · rw [if_pos hmem, List.pairwise_map]
    have hkey : ∀ q : ℚ × JsNum, (if q.1 == p.1 then p else q).1 = q.1 := by
      intro q
      by_cases hq : q.1 = p.1
      · rw [if_pos (by simpa using hq), hq]
      · rw [if_neg (by simpa using hq)]
    exact h.imp (fun {a b} hab => by rw [hkey a, hkey b]; exact hab)
  · rw [if_neg hmem, List.pairwise_append]
    refine ⟨h, List.pairwise_singleton _ _, ?_⟩
    intro a ha b hb
    rcases List.mem_singleton.mp hb with rfl
    intro hap
    exact hmem (List.any_eq_true.mpr ⟨a, ha, by simpa using hap⟩)

theorem upsertAll_keys_nodup (l : List (ℚ × JsNum)) :
    (upsertAll l).Pairwise (fun a b => a.1 ≠ b.1) := by
  induction l using List.reverseRecOn with
  | nil => exact List.Pairwise.nil
  | append_singleton l p ih =>
    rw [upsertAll_concat]
    exact upsertOne_keys_nodup _ p ih

/-- C1 counterexample: on the two-March grid the pipeline hands over
TWO March entries, (3, 100) and (3, 150), in row order — not a
RecordSet with a single March entry; the list it emits holds two
entries keyed by month 3. -/
theorem c1_counterexample :
    ingest lwwGrid = .ok [(3, .fin 100), (3, .fin 150)]
  ∧ List.countP (fun p => p.1 == (3 : ℚ))
      [((3 : ℚ), JsNum.fin 100), (3, JsNum.fin 150)] = 2 := by
  refine ⟨?_, ?_⟩ <;> with_unfolding_all rfl

/-- C1 (amended): the pipeline hands over one entry per valid row in
row order, so several entries may share a month; deduplication happens
in the caller's keyed upsert, applied in list order: after the fold,
every month holds the amount of the LAST entry for it, the folded set
has no duplicate month keys, and the two-March grid ends with the
single entry (3, 150). -/
theorem c1_last_write_wins :
    (∀ (l : List (ℚ × JsNum)) (m : ℚ),
      keyLookup m (upsertAll l) =
        ((l.filter (fun p => p.1 == m)).getLast?).map Prod.snd)
  ∧ (∀ l : List (ℚ × JsNum), (upsertAll l).Pairwise (fun a b => a.1 ≠ b.1))
  ∧ ingest lwwGrid = .ok [(3, .fin 100), (3, .fin 150)]
  ∧ upsertAll [(3, .fin 100), (3, .fin 150)] = [(3, .fin 150)] := by
  exact ⟨keyLookup_upsertAll, upsertAll_keys_nodup,
    by with_unfolding_all rfl, by with_unfolding_all rfl⟩

/-! ## C7: amount parsing

`parseAmountClaim` below is written from the CLAIM's words, not from
the source, to compare the two: the claim says the stripping keeps "a
single leading minus sign" and that the remaining string is "parsed as
a decimal number" (a full-string decimal numeral).  The source instead
keeps every minus sign wherever it occurs and applies `parseFloat`,
which parses the longest numeric prefix. -/

/-- Written from the claim's words: keep digits and decimal points
wherever they occur, but a minus sign only as a single leading sign. -/
def claimStrip (s : String) : String :=
  String.mk ((match s.toList with | '-' :: _ => ['-'] | _ => []) ++
    s.toList.filter (fun c => c.isDigit || c == '.'))

/-- Written from the claim's words: the value of a full-string unsigned
decimal numeral (digits, at most one dot, at least one digit). -/
def decimalNumeralCore (cs : List Char) : Option ℚ :=
  match cs.dropWhile Char.isDigit with
  | [] => if cs.isEmpty then none else some (digitsToNat cs)
  | '.' :: rest =>
    if rest.all Char.isDigit ∧ ¬(cs.takeWhile Char.isDigit = [] ∧ rest = []) then
      some ((digitsToNat (cs.takeWhile Char.isDigit) : ℚ) + fracValue rest)
    else none
  | _ => none

/-- Written from the claim's words: a full-string decimal numeral with
an optional leading minus sign. -/
def decimalNumeral (s : String) : Option ℚ :=
  match s.toList with
  | '-' :: cs => (decimalNumeralCore cs).map Neg.neg
  | cs => decimalNumeralCore cs

/-- Written from the claim's words: amount parsing as the claim states
it (numeric pass-through, stringify, trim, claim-strip, sentinel check,
full-string decimal parse). -/
def parseAmountClaim : Cell → Option JsNum
  | .absent => none
  | .num j => some j
  | c =>
    if claimStrip (jsTrim (cellToString c)) = "" ∨
        claimStrip (jsTrim (cellToString c)) = "-" ∨
        claimStrip (jsTrim (cellToString c)) = "." ∨
        claimStrip (jsTrim (cellToString c)) = "-." then none
    else (decimalNumeral (claimStrip (jsTrim (cellToString c)))).map JsNum.fin

/-- C7 counterexample: on the cell `"5-5"` the source keeps the medial
minus sign and `parseFloat` stops at it, returning 5, while the claim's
procedure (single leading minus, full-string decimal parse) returns 55
— so amount parsing is not the procedure the claim describes. -/
theorem c7_counterexample :
    parseAmount (.str "5-5") = some (.fin 5)
  ∧ parseAmountClaim (.str "5-5") = some (.fin 55)
  ∧ JsNum.fin 5 ≠ JsNum.fin 55 := by
  refine ⟨by with_unfolding_all rfl, by with_unfolding_all rfl, ?_⟩
  simp only [ne_eq, JsNum.fin.injEq]
  norm_num

/-- C7 (amended): amount parsing returns numeric cells unchanged; every
other cell is stringified, trimmed, and stripped of every character
except digits, minus signs (wherever they occur) and decimal points;
strings reducing to one of the sentinels "", "-", ".", "-." are
unresolved, every resolved string yields a finite number, and the
remaining string is parsed with JS parseFloat semantics (longest
numeric prefix) — giving the spec's examples, and 5 for `"5-5"`. -/
theorem c7_amount_parsing :
    (∀ j : JsNum, parseAmount (.num j) = some j)
  ∧ (∀ (s : String) (a : JsNum), parseAmount (.str s) = some a →
      ∃ q : ℚ, a = .fin q)
  ∧ (∀ s : String, stripAmountChars (jsTrim s) ∈ ["", "-", ".", "-."] →
      parseAmount (.str s) = none)
  ∧ parseAmount (.str "$1,234.50") = some (.fin 1234.5)
  ∧ parseAmount (.str "-") = none
  ∧ parseAmount (.str "  42 ") = some (.fin 42)
  ∧ parseAmount (.num (.fin 7.5)) = some (.fin 7.5)
  ∧ parseAmount (.str "5-5") = some (.fin 5) := by
  refine ⟨fun j => rfl, ?_, ?_, by with_unfolding_all rfl, by with_unfolding_all rfl,
    by with_unfolding_all rfl, rfl, by with_unfolding_all rfl⟩
  · intro s a h
    simp only [parseAmount, cellToString] at h
    split at h
    · cases h
    · rcases Option.map_eq_some'.mp h with ⟨r, -, hr⟩
      exact ⟨r, hr.symm⟩
  · intro s hmem
    simp only [List.mem_cons, List.not_mem_nil, or_false] at hmem
    rcases hmem with h | h | h | h <;>
      · simp only [parseAmount, cellToString]
        rw [if_pos (by simp [h])]

/-- Witness for C7 (amended): its universal parts applied at concrete
cells. -/
theorem c7_amount_parsing_witness :
    (∃ q : ℚ, JsNum.fin 42 = JsNum.fin q) ∧ parseAmount (.str " - ") = none :=
  ⟨c7_amount_parsing.2.1 "  42 " (.fin 42) (by with_unfolding_all rfl),
    c7_amount_parsing.2.2.1 " - " (by with_unfolding_all decide)⟩

end FinancialDb
